import Mathlib

/-!
Shallow embedding, in Lean 4, of the core logic of the nfl-playoff-draft
repository:

* the snake-draft turn resolver from the draft page
  (function pickOwnerForSnake in src/app/league/[id]/draft/page.tsx),
* the client-side merge of an incoming pick notification into the local
  picks list (the setPicks updater in the realtime subscription handler of
  the same file),
* the scoring script src/scripts/scoreEvent.mjs: the numeric helper toInt,
  the box-score stat extraction extractStatsFromSummary, the fantasy point
  formula computePoints, and the pure per-league core of
  updateLeagueTeamPoints together with its delete-then-insert persistence
  step.

JavaScript numbers are modelled as exact integers (Nat/Int) and exact
rationals (Rat); JavaScript null/undefined are modelled with Option, and a
small JSVal type models the dynamically typed values that flow into the
numeric parsing helper.  Fallible lookups return Option.
-/

/-! ## A small model of the JavaScript values reaching the helpers -/

/-- Dynamically typed JavaScript values as they reach toInt and the
box-score walker: null, undefined, strings and (integer) numbers. -/
inductive JSVal where
  | null : JSVal
  | undefined : JSVal
  | str : String → JSVal
  | num : Int → JSVal
deriving DecidableEq, Repr

/-- JavaScript truthiness for the values of JSVal. -/
def JSVal.truthy : JSVal → Bool
  | .null => false
  | .undefined => false
  | .str s => !(s == "")
  | .num n => !(n == 0)

/-- The String(x) conversion for the values of JSVal. -/
def JSVal.jsToString : JSVal → String
  | .null => "null"
  | .undefined => "undefined"
  | .str s => s
  | .num n => toString n

/-- The JavaScript or-else on optional strings: a || b keeps a when a is a
non-empty string and otherwise evaluates to b. -/
def jsOrS (a b : Option String) : Option String :=
  match a with
  | some s => if s = "" then b else some s
  | none => b

/-! ## Numeric parsing: toInt from src/scripts/scoreEvent.mjs

The script does String(x).replace(/[^\d-]/g, "") and then parseInt(..., 10),
returning 0 for null/undefined input and whenever the parse yields NaN. -/

/-- The regex replace /[^\d-]/g: keep only ASCII digits and minus signs. -/
def stripNonDigits (s : String) : String :=
  String.mk (s.data.filter (fun c => c.isDigit || c == '-'))

/-- Value of a list of decimal digit characters. -/
def digitsToNat (l : List Char) : Nat :=
  l.foldl (fun n c => 10 * n + (c.toNat - Char.toNat '0')) 0

/-- parseInt's leading digit run: the value of the longest digit run at the
start of the character list, or none (NaN) when it is empty. -/
def digitsPrefixVal (cs : List Char) : Option Nat :=
  let ds := cs.takeWhile (fun c => c.isDigit)
  if ds.isEmpty then none else some (digitsToNat ds)

/-- parseInt(s, 10) on the strings produced by stripNonDigits: an optional
sign followed by the leading digit run; none models NaN.  (The inputs the
script feeds it contain no leading whitespace, which is why whitespace
skipping is not modelled.) -/
def jsParseInt (s : String) : Option Int :=
  match s.data with
  | '-' :: rest => (digitsPrefixVal rest).map (fun v => -(v : Int))
  | '+' :: rest => (digitsPrefixVal rest).map (fun v => (v : Int))
  | cs => (digitsPrefixVal cs).map (fun v => (v : Int))

/-- toInt from src/scripts/scoreEvent.mjs: 0 for null/undefined, otherwise
parseInt of the digit-stripped string rendering, with 0 for NaN. -/
def toInt (x : JSVal) : Int :=
  match x with
  | .null => 0
  | .undefined => 0
  | v =>
    match jsParseInt (stripNonDigits v.jsToString) with
    | some n => n
    | none => 0

/-! ## Snake-draft turn resolver
(function pickOwnerForSnake, src/app/league/[id]/draft/page.tsx) -/

/-- One row of the draft_order table: slot → owner. -/
structure OrderEntry where
  slot : Nat
  user_id : String
deriving DecidableEq, Repr

/-- The slot arithmetic of pickOwnerForSnake:
round = Math.floor((pickNumber-1)/n)+1, idx = ((pickNumber-1) % n)+1,
slot = idx in odd rounds and n - idx + 1 in even rounds. -/
def snakeSlot (n : Nat) (pickNumber : Nat) : Nat :=
  let round := (pickNumber - 1) / n + 1
  let idx := (pickNumber - 1) % n + 1
  if round % 2 = 1 then idx else n - idx + 1

/-- pickOwnerForSnake from src/app/league/[id]/draft/page.tsx.  numTeams
models league?.num_teams (none when the league or the column is missing);
the guards mirror `if (!league?.num_teams) return null` and
`if (!n || n < 1) return null`; the lookup mirrors
`order.find((o) => o.slot === slot)` and the final `entry?.user_id || null`. -/
def pickOwnerForSnake (numTeams : Option Int) (order : List OrderEntry)
    (pickNumber : Nat) : Option String :=
  match numTeams with
  | none => none
  | some n =>
    if n = 0 then none
    else if n < 1 then none
    else
      let slot := snakeSlot n.toNat pickNumber
      match order.find? (fun o => o.slot == slot) with
      | none => none
      | some e => if e.user_id == "" then none else some e.user_id

/-! ## Client-side merge of an incoming pick notification
(the setPicks updater in the draft_picks INSERT handler of
src/app/league/[id]/draft/page.tsx) -/

/-- One row of the draft_picks table as it appears in the realtime payload. -/
structure PickRow where
  id : String
  pick_number : Nat
  user_id : String
  player_id : String
deriving DecidableEq, Repr

/-- The setPicks updater: if some existing pick has the incoming id, keep
the list unchanged; otherwise append the new pick and re-sort by
pick_number (Array.prototype.sort is stable, modelled by mergeSort). -/
def mergePick (prev : List PickRow) (newPick : PickRow) : List PickRow :=
  if prev.any (fun p => p.id == newPick.id) then prev
  else (prev ++ [newPick]).mergeSort (fun a b => a.pick_number ≤ b.pick_number)

/-! ## Scoring: computePoints (src/scripts/scoreEvent.mjs) -/

/-- Accumulated per-(game, athlete) stat line, as built by
extractStatsFromSummary.  Counting statistics come out of toInt and are
therefore integers. -/
structure GameStatLine where
  espn_athlete_id : String
  team_abbr : Option String
  passing_yards : Int
  passing_tds : Int
  interceptions : Int
  rushing_yards : Int
  rushing_tds : Int
  receiving_yards : Int
  receiving_tds : Int
  receptions : Int
  fumbles_lost : Int
  kick_return_tds : Int
  punt_return_tds : Int
deriving DecidableEq, Repr

/-- Number(x.toFixed(2)): round to the nearest multiple of 1/100, ties
towards +infinity (ECMA toFixed picks the larger candidate on a tie). -/
def round2 (q : ℚ) : ℚ :=
  ((⌊q * 100 + 1 / 2⌋ : ℤ) : ℚ) / 100

/-- computePoints from src/scripts/scoreEvent.mjs, with JavaScript numbers
modelled as exact rationals. -/
def computePoints (s : GameStatLine) : ℚ :=
  let pass : ℚ :=
    0.04 * (s.passing_yards : ℚ) + 4 * (s.passing_tds : ℚ)
      - 2 * (s.interceptions : ℚ)
  let rush : ℚ := 0.1 * (s.rushing_yards : ℚ) + 6 * (s.rushing_tds : ℚ)
  let recv : ℚ :=
    0.1 * (s.receiving_yards : ℚ) + 6 * (s.receiving_tds : ℚ)
      + 0.5 * (s.receptions : ℚ)
  let fum : ℚ := -2 * (s.fumbles_lost : ℚ)
  let rets : ℚ := 6 * ((s.kick_return_tds : ℚ) + (s.punt_return_tds : ℚ))
  round2 (pass + rush + recv + fum + rets)

/-! ## Box-score stat extraction
(function extractStatsFromSummary, src/scripts/scoreEvent.mjs) -/

/-- teamBlock.team: the fields the script reads. -/
structure TeamInfo where
  abbreviation : Option String
  shortDisplayName : Option String
deriving DecidableEq, Repr

/-- row.athlete: the script only reads its id. -/
structure AthleteInfo where
  id : Option JSVal
deriving DecidableEq, Repr

/-- One athlete row of a statistics category: athlete and the stats values
aligned with the category's labels. -/
structure AthleteRow where
  athlete : Option AthleteInfo
  stats : Option (List JSVal)
deriving DecidableEq, Repr

/-- One statistics category of a team block: name, column labels and
athlete rows. -/
structure StatGroup where
  name : Option String
  labels : Option (List String)
  athletes : Option (List AthleteRow)
deriving DecidableEq, Repr

/-- One entry of boxscore.players: a team with its statistics categories
(statistics = none models a missing or non-array field). -/
structure TeamBlock where
  team : Option TeamInfo
  statistics : Option (List StatGroup)
deriving DecidableEq, Repr

/-- Substring test on character lists, modelling String.prototype.includes. -/
def subOf (needle : List Char) : List Char → Bool
  | [] => needle.isEmpty
  | c :: t => needle.isPrefixOf (c :: t) || subOf needle t

/-- The toLowerCase() of the script, modelled as a per-character ASCII
lowercase map (category names and column labels are ASCII). -/
def strToLower (s : String) : String := String.mk (s.data.map Char.toLower)

/-- A stat line with every counting statistic zero, as created by getOrInit:
team_abbr is `teamAbbr || null`. -/
def initLine (athleteId : String) (teamAbbr : Option String) : GameStatLine :=
  { espn_athlete_id := athleteId
    team_abbr := jsOrS teamAbbr none
    passing_yards := 0, passing_tds := 0, interceptions := 0
    rushing_yards := 0, rushing_tds := 0
    receiving_yards := 0, receiving_tds := 0, receptions := 0
    fumbles_lost := 0, kick_return_tds := 0, punt_return_tds := 0 }

/-- Truthiness of an optional string (undefined/null/"" are falsy). -/
def optTruthy : Option String → Bool
  | none => false
  | some s => !(s == "")

/-- The team_abbr backfill inside getOrInit:
`if (!obj.team_abbr && teamAbbr) obj.team_abbr = teamAbbr`. -/
def updAbbr (teamAbbr : Option String) (l : GameStatLine) : GameStatLine :=
  if !(optTruthy l.team_abbr) && optTruthy teamAbbr then
    { l with team_abbr := teamAbbr }
  else l

/-- Apply f to the first accumulated line with the given athlete id,
keeping its position (the script mutates the object held by the Map). -/
def updateLine (acc : List GameStatLine) (athleteId : String)
    (f : GameStatLine → GameStatLine) : List GameStatLine :=
  match acc with
  | [] => []
  | l :: t =>
    if l.espn_athlete_id == athleteId then f l :: t
    else l :: updateLine t athleteId f

/-- getOrInit: append a fresh zero line when the athlete id is new (Map
insertion order), then run the team_abbr backfill on the athlete's line. -/
def getOrInit (acc : List GameStatLine) (athleteId : String)
    (teamAbbr : Option String) : List GameStatLine :=
  let acc :=
    if acc.any (fun l => l.espn_athlete_id == athleteId) then acc
    else acc ++ [initLine athleteId teamAbbr]
  updateLine acc athleteId (updAbbr teamAbbr)

/-- One labelled column applied to a stat line: the sequence of independent
if-statements of the script; name and label arrive already lowercased. -/
def applyLabel (name label : String) (v : JSVal) (s : GameStatLine) :
    GameStatLine :=
  let s := if name == "passing" && label == "yds" then
    { s with passing_yards := s.passing_yards + toInt v } else s
  let s := if name == "passing" && label == "td" then
    { s with passing_tds := s.passing_tds + toInt v } else s
  let s := if name == "passing" && label == "int" then
    { s with interceptions := s.interceptions + toInt v } else s
  let s := if name == "rushing" && label == "yds" then
    { s with rushing_yards := s.rushing_yards + toInt v } else s
  let s := if name == "rushing" && label == "td" then
    { s with rushing_tds := s.rushing_tds + toInt v } else s
  let s := if name == "receiving" && label == "yds" then
    { s with receiving_yards := s.receiving_yards + toInt v } else s
  let s := if name == "receiving" && label == "td" then
    { s with receiving_tds := s.receiving_tds + toInt v } else s
  let s := if name == "receiving" && label == "rec" then
    { s with receptions := s.receptions + toInt v } else s
  let s := if name == "kickreturns" && label == "td" then
    { s with kick_return_tds := s.kick_return_tds + toInt v } else s
  let s := if name == "puntreturns" && label == "td" then
    { s with punt_return_tds := s.punt_return_tds + toInt v } else s
  let s := if subOf "fumble".data name.data && subOf "lost".data label.data
    then { s with fumbles_lost := s.fumbles_lost + toInt v } else s
  s

/-- The for-loop over label indices: label i is lowercased (a missing or
falsy label becomes ""), value i defaults to undefined past the end of the
stats array. -/
def applyLabels (name : String) (labels : List String) (values : List JSVal)
    (s : GameStatLine) : GameStatLine :=
  match labels with
  | [] => s
  | l :: ls =>
    applyLabels name ls (values.drop 1)
      (applyLabel name (strToLower l) ((values.get? 0).getD .undefined) s)

/-- The athlete id of a row: `row?.athlete?.id ? String(row.athlete.id) : null`. -/
def athleteIdOfRow (row : AthleteRow) : Option String :=
  match row.athlete with
  | none => none
  | some a =>
    match a.id with
    | none => none
    | some v => if v.truthy then some v.jsToString else none

/-- Process one athlete row: skip rows without a truthy athlete id,
otherwise getOrInit, then fold the labelled columns into the line. -/
def processRow (acc : List GameStatLine) (teamAbbr : Option String)
    (name : String) (labels : List String) (row : AthleteRow) :
    List GameStatLine :=
  match athleteIdOfRow row with
  | none => acc
  | some aid =>
    let acc := getOrInit acc aid teamAbbr
    updateLine acc aid (applyLabels name labels (row.stats.getD []))

/-- Process one statistics category of one team block. -/
def processGroup (acc : List GameStatLine) (teamAbbr : Option String)
    (group : StatGroup) : List GameStatLine :=
  let name := strToLower ((jsOrS group.name (some "")).getD "")
  let labels := group.labels.getD []
  let athletes := group.athletes.getD []
  athletes.foldl (fun acc row => processRow acc teamAbbr name labels row) acc

/-- The coalesced team abbreviation of a block:
`teamBlock?.team?.abbreviation || teamBlock?.team?.shortDisplayName || null`. -/
def teamAbbrOf (block : TeamBlock) : Option String :=
  match block.team with
  | none => none
  | some t => jsOrS t.abbreviation (jsOrS t.shortDisplayName none)

/-- Process one team block; a missing statistics array is skipped. -/
def processTeamBlock (acc : List GameStatLine) (block : TeamBlock) :
    List GameStatLine :=
  let teamAbbr := teamAbbrOf block
  match block.statistics with
  | none => acc
  | some groups => groups.foldl (fun a g => processGroup a teamAbbr g) acc

/-- extractStatsFromSummary from src/scripts/scoreEvent.mjs, taking the
(optional) boxscore.players array; the result list is the Map's values in
insertion order. -/
def extractStatsFromSummary (players : Option (List TeamBlock)) :
    List GameStatLine :=
  match players with
  | none => []
  | some blocks => blocks.foldl processTeamBlock []

/-! ## Per-league team rollup
(function updateLeagueTeamPoints, src/scripts/scoreEvent.mjs).

The database round-trips are modelled by passing the relevant table
contents in as lists; the per-league body between the picks query and the
delete-then-insert step is a pure function of those lists. -/

/-- One row of draft_picks as selected by the rollup. -/
structure DraftPick where
  user_id : String
  player_id : String
deriving DecidableEq, Repr

/-- One row of players as selected by the rollup. -/
structure PlayerRec where
  id : String
  espn_athlete_id : Option String
  name : String
deriving DecidableEq, Repr

/-- One row of player_event_points for the event being scored. -/
structure PointsRec where
  espn_athlete_id : String
  fantasy_points : ℚ
deriving DecidableEq, Repr

/-- One row of league_team_event_points. -/
structure LeagueTeamEventRow where
  event_id : String
  league_id : String
  user_id : String
  fantasy_points : ℚ
deriving DecidableEq, Repr

/-- userPlayersMap.get(u).push(pid) with Map insertion order: append the
player id to the first entry for the user, or append a new entry. -/
def addPick (m : List (String × List String)) (u : String) (pid : String) :
    List (String × List String) :=
  match m with
  | [] => [(u, [pid])]
  | (v, l) :: rest =>
    if v = u then (v, l ++ [pid]) :: rest else (v, l) :: addPick rest u pid

/-- The user → drafted-player-ids map built from the picks, in pick order. -/
def userPlayersMap (picks : List DraftPick) : List (String × List String) :=
  picks.foldl (fun m p => addPick m p.user_id p.player_id) []

/-- Map.set(a, get(a) || 0 + v) with insertion order: accumulate v onto the
first entry for the athlete, or append a new entry. -/
def addPoints (m : List (String × ℚ)) (a : String) (v : ℚ) :
    List (String × ℚ) :=
  match m with
  | [] => [(a, v)]
  | (b, w) :: rest =>
    if b = a then (b, w + v) :: rest else (b, w) :: addPoints rest a v

/-- athletePointsMap: espn_athlete_id → summed fantasy points over the
fetched point rows. -/
def athletePointsMap (rows : List PointsRec) : List (String × ℚ) :=
  rows.foldl (fun m r => addPoints m r.espn_athlete_id r.fantasy_points) []

/-- Lookup in athletePointsMap with the script's `|| 0` default. -/
def pointsGetD (m : List (String × ℚ)) (a : String) : ℚ :=
  ((m.find? (fun p => p.1 == a)).map (fun p => p.2)).getD 0

/-- playerToAthleteMap.get(pid) combined with the `if (athleteId)` guard:
the Map constructor keeps the last entry per key, a missing player or a
null/empty athlete id is falsy and resolves to none. -/
def resolvedAthlete (players : List PlayerRec) (pid : String) :
    Option String :=
  match (players.filter (fun p => p.id == pid)).getLast? with
  | none => none
  | some p =>
    match p.espn_athlete_id with
    | none => none
    | some a => if a = "" then none else some a

/-- The contribution of one drafted player to their owner's total:
`athletePointsMap.get(athleteId) || 0` when the athlete id resolves,
nothing otherwise. -/
def pickContribution (players : List PlayerRec) (pm : List (String × ℚ))
    (pid : String) : ℚ :=
  match resolvedAthlete players pid with
  | none => 0
  | some a => pointsGetD pm a

/-- The per-league body of updateLeagueTeamPoints as a pure function of the
fetched tables: none models the `continue` paths that skip the league
(no picks, no matching player rows, no athlete ids at all); some rows is
the list handed to the delete-then-insert step. -/
def leagueTeamPointsRows (eventId leagueId : String)
    (picks : List DraftPick) (playersTable : List PlayerRec)
    (pointsTable : List PointsRec) : Option (List LeagueTeamEventRow) :=
  if picks.isEmpty then none
  else
    let playerIds := picks.map (fun p => p.player_id)
    let upm := userPlayersMap picks
    let players := playersTable.filter (fun p => playerIds.contains p.id)
    if players.isEmpty then none
    else
      let athleteIds :=
        (players.filterMap (fun p => p.espn_athlete_id)).filter
          (fun a => !(a == ""))
      if athleteIds.isEmpty then none
      else
        let eventPoints :=
          pointsTable.filter (fun r => athleteIds.contains r.espn_athlete_id)
        let pm := athletePointsMap eventPoints
        let rows := upm.map (fun e =>
          { event_id := eventId, league_id := leagueId, user_id := e.1
            fantasy_points :=
              round2 (e.2.foldl
                (fun t pid => t + pickContribution players pm pid) 0) })
        if rows.isEmpty then none else some rows

/-- The delete-then-insert persistence step for one (league, event) pair:
delete the league_team_event_points rows of exactly that pair, then insert
the recomputed rows. -/
def persistTeamPoints (table : List LeagueTeamEventRow)
    (leagueId eventId : String) (rows : List LeagueTeamEventRow) :
    List LeagueTeamEventRow :=
  (table.filter (fun r => !(r.league_id == leagueId && r.event_id == eventId)))
    ++ rows

/-- One league's slice of a scoring run: recompute the team rows and, when
the league is not skipped, replace that (league, event) slice of the table. -/
def runLeagueRollup (table : List LeagueTeamEventRow)
    (leagueId eventId : String) (picks : List DraftPick)
    (playersTable : List PlayerRec) (pointsTable : List PointsRec) :
    List LeagueTeamEventRow :=
  match leagueTeamPointsRows eventId leagueId picks playersTable pointsTable with
  | none => table
  | some rows => persistTeamPoints table leagueId eventId rows

/-! ## Definitions written from the specification's words, used to state
the claims as refinements of the source embedding above. -/

/-- Modelled from the spec: the Turn Resolver target slot, written exactly
as the spec states it — round = ⌈P / N⌉, index = ((P − 1) mod N) + 1,
slot = index in odd rounds and N − index + 1 in even rounds. -/
def specTargetSlot (N P : Nat) : Nat :=
  let round := (P + N - 1) / N
  let idx := (P - 1) % N + 1
  if round % 2 = 1 then idx else N - idx + 1

/-- First-occurrence key order of a list, as a JavaScript Map would hold
the keys. -/
def keysInOrder (l : List String) : List String :=
  l.foldl (fun acc u => if acc.contains u then acc else acc ++ [u]) []

/-- Modelled from the spec: an owner's raw (unrounded) event total — the
sum, over the owner's picks in order, of the resolved per-player event
points, with unresolvable players contributing 0. -/
def ownerEventTotal (picks : List DraftPick) (playersTable : List PlayerRec)
    (pointsTable : List PointsRec) (u : String) : ℚ :=
  let playerIds := picks.map (fun p => p.player_id)
  let players := playersTable.filter (fun p => playerIds.contains p.id)
  let athleteIds :=
    (players.filterMap (fun p => p.espn_athlete_id)).filter
      (fun a => !(a == ""))
  let eventPoints :=
    pointsTable.filter (fun r => athleteIds.contains r.espn_athlete_id)
  let pm := athletePointsMap eventPoints
  (((picks.filter (fun p => p.user_id == u)).map (fun p => p.player_id)).map
    (pickContribution players pm)).sum

/-- The fixed category vocabulary of the stat extraction, on an already
lowercased category name. -/
def recognizedName (name : String) : Bool :=
  name == "passing" || name == "rushing" || name == "receiving" ||
    name == "kickreturns" || name == "puntreturns" ||
    subOf "fumble".data name.data

/-- Every counting statistic of a line is zero. -/
def statsAllZero (l : GameStatLine) : Prop :=
  l.passing_yards = 0 ∧ l.passing_tds = 0 ∧ l.interceptions = 0 ∧
    l.rushing_yards = 0 ∧ l.rushing_tds = 0 ∧ l.receiving_yards = 0 ∧
    l.receiving_tds = 0 ∧ l.receptions = 0 ∧ l.fumbles_lost = 0 ∧
    l.kick_return_tds = 0 ∧ l.punt_return_tds = 0

instance (l : GameStatLine) : Decidable (statsAllZero l) := by
  unfold statsAllZero; infer_instance

/-- Two statistics categories that agree up to letter case of the category
name and of the column labels, and agree exactly on the athlete rows. -/
def groupKeyEq (g g2 : StatGroup) : Prop :=
  strToLower (g.name.getD "") = strToLower (g2.name.getD "") ∧
    (g.labels.getD []).map strToLower
      = (g2.labels.getD []).map strToLower ∧
    g.athletes = g2.athletes

/-- groupKeyEq lifted to the optional statistics arrays of a team block. -/
def statisticsKeyEq :
    Option (List StatGroup) → Option (List StatGroup) → Prop
  | none, none => True
  | some gs, some gs2 => List.Forall₂ groupKeyEq gs gs2
  | some _, none => False
  | none, some _ => False

/-- Two team blocks that agree up to letter case of category names and
column labels. -/
def blockKeyEq (b b2 : TeamBlock) : Prop :=
  b.team = b2.team ∧ statisticsKeyEq b.statistics b2.statistics

/-! ## Helper lemmas and demonstration fixtures -/

/-- The four-team draft order used in the specification's worked example. -/
def demoOrder : List OrderEntry :=
  [⟨1, "A"⟩, ⟨2, "B"⟩, ⟨3, "C"⟩, ⟨4, "D"⟩]

/-- A three-team draft order with distinct owners. -/
def ord3 : List OrderEntry := [⟨1, "A"⟩, ⟨2, "B"⟩, ⟨3, "C"⟩]

theorem snakeSlot_eq_spec (N P : Nat) (hN : 1 ≤ N) (hP : 1 ≤ P) :
    snakeSlot N P = specTargetSlot N P := by
  unfold snakeSlot specTargetSlot
  have h : P + N - 1 = (P - 1) + N := by omega
  rw [h, Nat.add_div_right _ (by omega : 0 < N)]

/-- C1: for every pick number P ≥ 1, team count N ≥ 1, and draft order with
an owner at the slot given by round = ⌈P / N⌉, index = ((P − 1) mod N) + 1,
slot = index in odd rounds and N − index + 1 in even rounds, the turn
resolver returns exactly that owner; and for N = 4 with order
{1:A, 2:B, 3:C, 4:D} picks 1..9 resolve to A, B, C, D, D, C, B, A, A. -/
theorem pickOwnerForSnake_spec :
    (∀ (N P : Nat) (order : List OrderEntry) (e : OrderEntry),
      1 ≤ N → 1 ≤ P →
      order.find? (fun o => o.slot == specTargetSlot N P) = some e →
      e.user_id ≠ "" →
      pickOwnerForSnake (some (N : Int)) order P = some e.user_id)
    ∧ (List.range 9).map
        (fun i => pickOwnerForSnake (some 4) demoOrder (i + 1))
      = [some "A", some "B", some "C", some "D", some "D", some "C", some "B",
         some "A", some "A"] := by
  constructor
  · intro N P order e hN hP hfind hne
    have h1 : ¬((N : Int) = 0) := by
      intro h
      have : N = 0 := by exact_mod_cast h
      omega
    have h2 : ¬((N : Int) < 1) := by
      push_neg
      exact_mod_cast hN
    simp only [pickOwnerForSnake]
    rw [if_neg h1, if_neg h2]
    have h3 : (N : Int).toNat = N := Int.toNat_natCast N
    rw [h3, snakeSlot_eq_spec N P hN hP, hfind]
    simp [hne]
  · decide

/-- Witness for C1 at N = 4, P = 5, the worked-example order. -/
theorem pickOwnerForSnake_spec_witness :
    (1 ≤ 4 ∧ 1 ≤ 5 ∧
      demoOrder.find? (fun o => o.slot == specTargetSlot 4 5)
        = some ⟨4, "D"⟩ ∧ ("D" : String) ≠ "") ∧
    pickOwnerForSnake (some ((4 : Nat) : Int)) demoOrder 5 = some "D" :=
  ⟨⟨by decide, by decide, by decide, by decide⟩,
    pickOwnerForSnake_spec.1 4 5 demoOrder ⟨4, "D"⟩ (by decide) (by decide)
      (by decide) (by decide)⟩

/-- C2 counterexample: with N = 3 ≠ 1, picks 2 and 2 + 3 = 5 resolve to the
same slot (slot 2) and hence the same owner. -/
theorem snakeSlot_repeat_cex :
    (3 : Nat) ≠ 1 ∧ snakeSlot 3 2 = snakeSlot 3 (2 + 3) ∧
      pickOwnerForSnake (some 3) ord3 2 = some "B" ∧
      pickOwnerForSnake (some 3) ord3 (2 + 3) = some "B" := by
  refine ⟨by decide, by decide, by decide, by decide⟩

/-- C2 amended: for N ≥ 1 and P ≥ 1, picks P and P + N resolve to the same
slot exactly when N is odd and the position-within-round index equals
(N + 1) / 2 — i.e. the middle slot of an odd-sized order (for N = 1 this is
always the case, and for even N the slots are never equal). -/
theorem snakeSlot_repeat_char :
    ∀ n P : Nat, 1 ≤ n → 1 ≤ P →
      (snakeSlot n (P + n) = snakeSlot n P ↔
        n % 2 = 1 ∧ (P - 1) % n + 1 = (n + 1) / 2) := by
  intro n P hn hP
  obtain ⟨p, rfl⟩ : ∃ p, P = p + 1 := ⟨P - 1, by omega⟩
  have h2 : p + 1 + n - 1 = p + n := by omega
  simp only [snakeSlot, h2, Nat.add_sub_cancel,
    Nat.add_div_right _ (by omega : 0 < n), Nat.add_mod_right]
  have hr : p % n < n := Nat.mod_lt _ (by omega)
  have hqr : n * (p / n) + p % n = p := Nat.div_add_mod p n
  split_ifs <;> omega

/-- Witness for C2's amended statement at N = 3, P = 2 (slots repeat) and,
via the even part of the characterization, the hypotheses hold. -/
theorem snakeSlot_repeat_char_witness :
    (1 ≤ 3 ∧ 1 ≤ 2) ∧
      (snakeSlot 3 (2 + 3) = snakeSlot 3 2 ↔
        3 % 2 = 1 ∧ (2 - 1) % 3 + 1 = (3 + 1) / 2) :=
  ⟨⟨by decide, by decide⟩, snakeSlot_repeat_char 3 2 (by decide) (by decide)⟩

/-- C6: for every pick number P ≥ 1 the turn resolver answers "no owner"
(none) — never an arbitrary owner and never a crash (it is a total
function) — when the team count is missing, when it is non-positive
(including 0), when the draft order lacks an entry for the resolved slot,
and in particular when the draft order is empty. -/
theorem pickOwnerForSnake_unresolved :
    ∀ (nt : Option Int) (order : List OrderEntry) (P : Nat), 1 ≤ P →
      pickOwnerForSnake none order P = none ∧
      (∀ n : Int, n ≤ 0 → pickOwnerForSnake (some n) order P = none) ∧
      (∀ n : Int, 1 ≤ n →
        order.find? (fun o => o.slot == snakeSlot n.toNat P) = none →
        pickOwnerForSnake (some n) order P = none) ∧
      pickOwnerForSnake nt [] P = none := by
  intro nt order P _
  refine ⟨rfl, ?_, ?_, ?_⟩
  · intro n hn
    simp only [pickOwnerForSnake]
    rcases eq_or_ne n 0 with h | h
    · rw [if_pos h]
    · rw [if_neg h, if_pos (by omega)]
  · intro n hn hfind
    simp only [pickOwnerForSnake]
    rw [if_neg (by omega : ¬n = 0), if_neg (by omega : ¬n < 1), hfind]
  · match nt with
    | none => rfl
    | some n =>
      simp only [pickOwnerForSnake]
      rcases eq_or_ne n 0 with h | h
      · rw [if_pos h]
      · rcases lt_or_le n 1 with h2 | h2
        · rw [if_neg h, if_pos h2]
        · rw [if_neg h, if_neg (by omega)]
          simp [List.find?]

/-- Witness for C6 at P = 1 with an empty order and team counts none, 0
and 3. -/
theorem pickOwnerForSnake_unresolved_witness :
    (1 ≤ 1 ∧ (0 : Int) ≤ 0 ∧ (1 : Int) ≤ 3 ∧
      ([] : List OrderEntry).find?
        (fun o => o.slot == snakeSlot (3 : Int).toNat 1) = none) ∧
    pickOwnerForSnake none [] 1 = none ∧
    pickOwnerForSnake (some 0) [] 1 = none ∧
    pickOwnerForSnake (some 3) [] 1 = none ∧
    pickOwnerForSnake (some 3) [] 1 = none :=
  ⟨⟨by decide, by decide, by decide, by decide⟩,
    (pickOwnerForSnake_unresolved (some 3) [] 1 (by decide)).1,
    (pickOwnerForSnake_unresolved (some 3) [] 1 (by decide)).2.1 0 (by decide),
    (pickOwnerForSnake_unresolved (some 3) [] 1 (by decide)).2.2.1 3
      (by decide) (by decide),
    (pickOwnerForSnake_unresolved (some 3) [] 1 (by decide)).2.2.2⟩

/-- C9: the client-side merge of an incoming pick notification is
idempotent keyed by the pick's primary key: an incoming pick whose id is
already present leaves the list unchanged, and merging the same
notification twice yields the same list as merging it once. -/
theorem mergePick_idem :
    ∀ (prev : List PickRow) (x : PickRow),
      (prev.any (fun p => p.id == x.id) = true → mergePick prev x = prev) ∧
      mergePick (mergePick prev x) x = mergePick prev x := by
  intro prev x
  constructor
  · intro h
    unfold mergePick
    rw [if_pos h]
  · by_cases h : prev.any (fun p => p.id == x.id) = true
    · have h1 : mergePick prev x = prev := by
        unfold mergePick
        rw [if_pos h]
      rw [h1]
      exact h1
    · have h1 : mergePick prev x =
          (prev ++ [x]).mergeSort
            (fun a b => a.pick_number ≤ b.pick_number) := by
        unfold mergePick
        rw [if_neg h]
      rw [h1]
      have hmem : x ∈ (prev ++ [x]).mergeSort
          (fun a b => a.pick_number ≤ b.pick_number) :=
        (List.mergeSort_perm (prev ++ [x])
          (fun a b => a.pick_number ≤ b.pick_number)).mem_iff.mpr (by simp)
      have hany : ((prev ++ [x]).mergeSort
          (fun a b => a.pick_number ≤ b.pick_number)).any
            (fun p => p.id == x.id) = true := by
        rw [List.any_eq_true]
        exact ⟨x, hmem, by simp⟩
      unfold mergePick
      rw [if_pos hany]

/-- Witness for C9 on a concrete one-element list and its own pick. -/
theorem mergePick_idem_witness :
    ([(⟨"i1", 1, "A", "p"⟩ : PickRow)].any
        (fun p => p.id == ("i1" : String)) = true) ∧
      mergePick [⟨"i1", 1, "A", "p"⟩] ⟨"i1", 1, "A", "p"⟩
        = [⟨"i1", 1, "A", "p"⟩] ∧
      mergePick (mergePick [⟨"i1", 1, "A", "p"⟩] ⟨"i1", 1, "A", "p"⟩)
          ⟨"i1", 1, "A", "p"⟩
        = mergePick [⟨"i1", 1, "A", "p"⟩] ⟨"i1", 1, "A", "p"⟩ :=
  ⟨by decide,
    (mergePick_idem [⟨"i1", 1, "A", "p"⟩] ⟨"i1", 1, "A", "p"⟩).1 (by decide),
    (mergePick_idem [⟨"i1", 1, "A", "p"⟩] ⟨"i1", 1, "A", "p"⟩).2⟩

/-- C7: toInt is a total function (never throws); it returns 0 on null and
undefined, its result on a string depends only on the digit/minus
characters (the non-digit formatting artifacts are stripped before
parsing), and it returns 0 whenever no digits are present at all, so a
malformed field yields 0 instead of aborting. -/
theorem toInt_total :
    toInt JSVal.null = 0 ∧ toInt JSVal.undefined = 0 ∧
      (∀ s : String,
        toInt (JSVal.str s) = toInt (JSVal.str (stripNonDigits s))) ∧
      (∀ s : String, (∀ c ∈ s.data, ¬ c.isDigit = true) →
        toInt (JSVal.str s) = 0) := by
  refine ⟨rfl, rfl, ?_, ?_⟩
  · intro s
    have key : stripNonDigits (stripNonDigits s) = stripNonDigits s := by
      simp [stripNonDigits, List.filter_filter]
    simp only [toInt, JSVal.jsToString, key]
  · intro s hs
    have hall : ∀ c ∈ (stripNonDigits s).data, c = '-' := by
      intro c hc
      have hc2 : c ∈ s.data.filter (fun c => c.isDigit || c == '-') := hc
      rw [List.mem_filter] at hc2
      rcases hc2 with ⟨hmem, hp⟩
      simp only [Bool.or_eq_true, beq_iff_eq] at hp
      rcases hp with hd | he
      · exact absurd hd (hs c hmem)
      · exact he
    have htw : ∀ cs : List Char, (∀ c ∈ cs, c = '-') →
        cs.takeWhile (fun c => c.isDigit) = [] := by
      intro cs h
      cases cs with
      | nil => rfl
      | cons c t =>
        have hc : c = '-' := h c (by simp)
        subst hc
        simp [List.takeWhile]
    have hparse : jsParseInt (stripNonDigits s) = none := by
      rcases hl : (stripNonDigits s).data with _ | ⟨c, t⟩
      · simp [jsParseInt, hl, digitsPrefixVal]
      · have hc : c = '-' := hall c (by rw [hl]; simp)
        subst hc
        have ht : ∀ x ∈ t, x = '-' := fun x hx =>
          hall x (by rw [hl]; simp [hx])
        simp [jsParseInt, hl, digitsPrefixVal, htw t ht]
    simp [toInt, JSVal.jsToString, hparse]

/-- Witness for C7 on the digit-free string "abc-" and on "x7y". -/
theorem toInt_total_witness :
    (∀ c ∈ ("abc-" : String).data, ¬ c.isDigit = true) ∧
      toInt (JSVal.str "abc-") = 0 ∧
      toInt (JSVal.str "x7y")
        = toInt (JSVal.str (stripNonDigits "x7y")) :=
  ⟨by decide, toInt_total.2.2.2 "abc-" (by decide), toInt_total.2.2.1 "x7y"⟩

theorem round2_int_div (k : ℤ) : round2 ((k : ℚ) / 100) = (k : ℚ) / 100 := by
  unfold round2
  rw [div_mul_cancel₀ _ (by norm_num : (100 : ℚ) ≠ 0)]
  have h : (⌊(k : ℚ) + 1 / 2⌋ : ℤ) = k := by
    rw [Int.floor_eq_iff]
    norm_num
  rw [h]

theorem round2_eq_self {x : ℚ} (k : ℤ) (h : x = (k : ℚ) / 100) :
    round2 x = x := by
  rw [h]
  exact round2_int_div k

theorem computePoints_eq (s : GameStatLine) :
    computePoints s =
      0.04 * (s.passing_yards : ℚ) + 4 * (s.passing_tds : ℚ)
        - 2 * (s.interceptions : ℚ)
        + 0.10 * (s.rushing_yards : ℚ) + 6 * (s.rushing_tds : ℚ)
        + 0.10 * (s.receiving_yards : ℚ) + 6 * (s.receiving_tds : ℚ)
        + 0.5 * (s.receptions : ℚ) - 2 * (s.fumbles_lost : ℚ)
        + 6 * ((s.kick_return_tds : ℚ) + (s.punt_return_tds : ℚ)) := by
  simp only [computePoints]
  rw [round2_eq_self
    (4 * s.passing_yards + 400 * s.passing_tds - 200 * s.interceptions
      + 10 * s.rushing_yards + 600 * s.rushing_tds
      + 10 * s.receiving_yards + 600 * s.receiving_tds + 50 * s.receptions
      - 200 * s.fumbles_lost
      + 600 * (s.kick_return_tds + s.punt_return_tds))
    (by push_cast; ring_nf)]
  ring

/-- C3: computePoints is exactly the linear half-PPR formula of the
specification — the 2-decimal half-up rounding step is the identity on it,
since integer stat lines always produce an exact multiple of 1/100 — and
the stat line with 300 passing yards, 3 passing TDs and 1 interception
scores exactly 22.00. -/
theorem computePoints_formula :
    (∀ s : GameStatLine,
      computePoints s =
        0.04 * (s.passing_yards : ℚ) + 4 * (s.passing_tds : ℚ)
          - 2 * (s.interceptions : ℚ)
          + 0.10 * (s.rushing_yards : ℚ) + 6 * (s.rushing_tds : ℚ)
          + 0.10 * (s.receiving_yards : ℚ) + 6 * (s.receiving_tds : ℚ)
          + 0.5 * (s.receptions : ℚ) - 2 * (s.fumbles_lost : ℚ)
          + 6 * ((s.kick_return_tds : ℚ) + (s.punt_return_tds : ℚ)))
    ∧ computePoints ⟨"demo", none, 300, 3, 1, 0, 0, 0, 0, 0, 0, 0, 0⟩ = 22 :=
  ⟨computePoints_eq, by rw [computePoints_eq]; norm_num⟩

/-! ### Lemmas about the insertion-order maps of the rollup -/

theorem keysInOrder_aux (l : List String) :
    ∀ acc : List String, acc.Nodup →
      (List.foldl (fun acc u => if acc.contains u then acc else acc ++ [u])
        acc l).Nodup ∧
      ∀ a, a ∈ List.foldl
          (fun acc u => if acc.contains u then acc else acc ++ [u]) acc l ↔
        a ∈ acc ∨ a ∈ l := by
  induction l with
  | nil =>
    intro acc h
    exact ⟨h, by simp⟩
  | cons u t ih =>
    intro acc h
    simp only [List.foldl_cons]
    by_cases hc : acc.contains u
    · rw [if_pos hc]
      obtain ⟨h1, h2⟩ := ih acc h
      refine ⟨h1, fun a => ?_⟩
      rw [h2]
      have hu : u ∈ acc := List.elem_iff.mp hc
      constructor
      · rintro (ha | ha)
        · exact Or.inl ha
        · exact Or.inr (List.mem_cons_of_mem _ ha)
      · rintro (ha | ha)
        · exact Or.inl ha
        · rcases List.mem_cons.mp ha with rfl | ha
          · exact Or.inl hu
          · exact Or.inr ha
    · rw [if_neg hc]
      have hnmem : u ∉ acc := fun hm => hc (List.elem_iff.mpr hm)
      have hnd : (acc ++ [u]).Nodup := by
        simp [List.nodup_append, h, hnmem]
      obtain ⟨h1, h2⟩ := ih (acc ++ [u]) hnd
      refine ⟨h1, fun a => ?_⟩
      rw [h2]
      simp only [List.mem_append, List.mem_singleton, List.mem_cons]
      tauto

theorem keysInOrder_nodup (l : List String) : (keysInOrder l).Nodup :=
  (keysInOrder_aux l [] (by simp)).1

theorem mem_keysInOrder (l : List String) (a : String) :
    a ∈ keysInOrder l ↔ a ∈ l := by
  have h := (keysInOrder_aux l [] (by simp)).2 a
  simpa [keysInOrder] using h

theorem keysInOrder_append (l : List String) (u : String) :
    keysInOrder (l ++ [u]) =
      if (keysInOrder l).contains u then keysInOrder l
      else keysInOrder l ++ [u] := by
  unfold keysInOrder
  rw [List.foldl_append]
  rfl

/-- The grouping of picks by owner, stated directly: first-occurrence key
order, and per owner the player ids of their picks in pick order. -/
def groupSpec (picks : List DraftPick) : List (String × List String) :=
  (keysInOrder (picks.map (fun p => p.user_id))).map
    (fun u => (u,
      (picks.filter (fun p => p.user_id == u)).map (fun p => p.player_id)))

theorem addPick_of_not_mem (m : List (String × List String)) (u pid : String)
    (h : ∀ e ∈ m, e.1 ≠ u) : addPick m u pid = m ++ [(u, [pid])] := by
  induction m with
  | nil => rfl
  | cons e rest ih =>
    obtain ⟨v, l⟩ := e
    simp only [addPick]
    rw [if_neg (h (v, l) (by simp)), ih (fun e he => h e (by simp [he]))]
    rfl

theorem addPick_of_mem (keys : List String) (g : String → List String)
    (u pid : String) (hmem : u ∈ keys) (hnd : keys.Nodup) :
    addPick (keys.map (fun k => (k, g k))) u pid
      = keys.map (fun k => (k, if k = u then g k ++ [pid] else g k)) := by
  induction keys with
  | nil => simp at hmem
  | cons k ks ih =>
    simp only [List.map_cons, addPick]
    by_cases hk : k = u
    · subst hk
      rw [if_pos rfl]
      simp only [if_pos rfl]
      congr 1
      apply List.map_congr_left
      intro a ha
      have hak : a ≠ k := fun h => (List.nodup_cons.mp hnd).1 (h ▸ ha)
      rw [if_neg hak]
    · rw [if_neg hk]
      have hmem2 : u ∈ ks := by
        rcases List.mem_cons.mp hmem with h | h
        · exact absurd h.symm hk
        · exact h
      rw [ih hmem2 (List.nodup_cons.mp hnd).2]
      rw [if_neg hk]

theorem userPlayersMap_eq (picks : List DraftPick) :
    userPlayersMap picks = groupSpec picks := by
  induction picks using List.reverseRecOn with
  | nil => rfl
  | append_singleton ps p ih =>
    have hfold : userPlayersMap (ps ++ [p])
        = addPick (userPlayersMap ps) p.user_id p.player_id := by
      unfold userPlayersMap
      rw [List.foldl_append]
      rfl
    rw [hfold, ih]
    unfold groupSpec
    rw [List.map_append]
    simp only [List.map_cons, List.map_nil]
    rw [keysInOrder_append]
    by_cases hc :
        (keysInOrder (ps.map (fun q => q.user_id))).contains p.user_id
    · rw [if_pos hc]
      have hmem : p.user_id ∈ keysInOrder (ps.map (fun q => q.user_id)) :=
        List.elem_iff.mp hc
      rw [addPick_of_mem _ _ _ _ hmem (keysInOrder_nodup _)]
      apply List.map_congr_left
      intro a _
      by_cases hau : a = p.user_id
      · rw [if_pos hau, List.filter_append, List.map_append]
        have hone : List.filter (fun q => q.user_id == a) [p] = [p] := by
          rw [List.filter_cons, if_pos (beq_iff_eq.mpr hau.symm),
            List.filter_nil]
        rw [hone]
        rfl
      · rw [if_neg hau, List.filter_append, List.map_append]
        have hzero : List.filter (fun q => q.user_id == a) [p] = [] := by
          rw [List.filter_cons,
            if_neg (by simp [beq_iff_eq]; exact fun h => hau h.symm),
            List.filter_nil]
        rw [hzero]
        simp
    · rw [if_neg hc]
      have hnmem : p.user_id ∉ keysInOrder (ps.map fun q => q.user_id) :=
        fun hm => hc (List.elem_iff.mpr hm)
      have hnpicks : p.user_id ∉ ps.map fun q => q.user_id := by
        rw [← mem_keysInOrder]
        exact hnmem
      rw [addPick_of_not_mem _ _ _ (fun e he => by
        obtain ⟨k, hk, rfl⟩ := List.mem_map.mp he
        exact fun h => hnmem (h ▸ hk))]
      rw [List.map_append]
      congr 1
      · apply List.map_congr_left
        intro a ha
        have hau : p.user_id ≠ a := fun h => hnmem (h ▸ ha)
        rw [List.filter_append, List.map_append]
        have hzero : List.filter (fun q => q.user_id == a) [p] = [] := by
          rw [List.filter_cons, if_neg (by simp [beq_iff_eq]; exact hau),
            List.filter_nil]
        rw [hzero]
        simp
      · simp only [List.map_cons, List.map_nil]
        have hzero : List.filter (fun q => q.user_id == p.user_id) ps = [] :=
          List.filter_eq_nil_iff.mpr (fun q hq hbeq => by
            exact hnpicks (List.mem_map.mpr ⟨q, hq, eq_of_beq hbeq⟩))
        rw [List.filter_append, hzero]
        have hone : List.filter
            (fun q => q.user_id == p.user_id) [p] = [p] := by
          rw [List.filter_cons, if_pos (beq_iff_eq.mpr rfl), List.filter_nil]
        rw [hone]
        rfl

/-- The per-athlete sum of fantasy points, stated directly as a filter. -/
def sumPointsFor (rows : List PointsRec) (a : String) : ℚ :=
  ((rows.filter (fun r => r.espn_athlete_id == a)).map
    (fun r => r.fantasy_points)).sum

theorem pointsGetD_nil (a : String) : pointsGetD [] a = 0 := rfl

theorem pointsGetD_cons (c : String) (w : ℚ) (rest : List (String × ℚ))
    (a : String) :
    pointsGetD ((c, w) :: rest) a = if c = a then w else pointsGetD rest a := by
  simp only [pointsGetD]
  by_cases h : c = a
  · have hf : List.find? (fun p => p.1 == a) ((c, w) :: rest) = some (c, w) :=
      List.find?_cons_of_pos rest (beq_iff_eq.mpr h)
    rw [hf, if_pos h]
    rfl
  · have hf : List.find? (fun p => p.1 == a) ((c, w) :: rest)
        = List.find? (fun p => p.1 == a) rest :=
      List.find?_cons_of_neg rest (by simp [beq_iff_eq]; exact h)
    rw [hf, if_neg h]

theorem pointsGetD_addPoints (m : List (String × ℚ)) (b : String) (v : ℚ)
    (a : String) :
    pointsGetD (addPoints m b v) a
      = pointsGetD m a + (if b = a then v else 0) := by
  induction m with
  | nil =>
    simp only [addPoints]
    rw [pointsGetD_cons, pointsGetD_nil]
    by_cases h : b = a <;> simp [h]
  | cons e rest ih =>
    obtain ⟨c, w⟩ := e
    simp only [addPoints]
    by_cases hcb : c = b
    · subst hcb
      rw [if_pos rfl, pointsGetD_cons, pointsGetD_cons]
      by_cases hca : c = a <;> simp [hca]
    · rw [if_neg hcb, pointsGetD_cons, pointsGetD_cons]
      by_cases hca : c = a
      · rw [if_pos hca, if_pos hca, if_neg (fun h => hcb (hca.trans h.symm))]
        simp
      · rw [if_neg hca, if_neg hca]
        exact ih

theorem pointsGetD_athletePointsMap (rows : List PointsRec) (a : String) :
    pointsGetD (athletePointsMap rows) a = sumPointsFor rows a := by
  induction rows using List.reverseRecOn with
  | nil => rfl
  | append_singleton rs r ih =>
    have hfold : athletePointsMap (rs ++ [r])
        = addPoints (athletePointsMap rs) r.espn_athlete_id
            r.fantasy_points := by
      unfold athletePointsMap
      rw [List.foldl_append]
      rfl
    rw [hfold, pointsGetD_addPoints, ih]
    unfold sumPointsFor
    rw [List.filter_append]
    by_cases h : r.espn_athlete_id = a
    · have hone : List.filter (fun q => q.espn_athlete_id == a) [r] = [r] := by
        rw [List.filter_cons, if_pos (beq_iff_eq.mpr h), List.filter_nil]
      rw [hone, if_pos h, List.map_append]
      simp
    · have hzero : List.filter (fun q => q.espn_athlete_id == a) [r] = [] := by
        rw [List.filter_cons, if_neg (by simp [beq_iff_eq]; exact h),
          List.filter_nil]
      rw [hzero, if_neg h, List.map_append]
      simp

theorem foldl_add_eq_sum {α : Type} (f : α → ℚ) (l : List α) :
    ∀ c : ℚ, l.foldl (fun t x => t + f x) c = c + (l.map f).sum := by
  induction l with
  | nil => intro c; simp
  | cons x t ih =>
    intro c
    simp only [List.foldl_cons, List.map_cons, List.sum_cons]
    rw [ih (c + f x)]
    ring

/-- The guards of leagueTeamPointsRows, recovered from a successful run. -/
theorem leagueTeamPointsRows_guards {E L : String} {picks : List DraftPick}
    {playersT : List PlayerRec} {ptsT : List PointsRec}
    {rows : List LeagueTeamEventRow}
    (h : leagueTeamPointsRows E L picks playersT ptsT = some rows) :
    picks ≠ [] ∧
      playersT.filter
        (fun p => (picks.map (fun p => p.player_id)).contains p.id) ≠ [] ∧
      ((playersT.filter
          (fun p => (picks.map (fun p => p.player_id)).contains p.id)).filterMap
        (fun p => p.espn_athlete_id)).filter (fun a => !(a == "")) ≠ [] := by
  unfold leagueTeamPointsRows at h
  by_cases h1 : picks.isEmpty
  · rw [if_pos h1] at h
    exact absurd h (by simp)
  · rw [if_neg h1] at h
    by_cases h2 : (playersT.filter
        (fun p => (picks.map (fun p => p.player_id)).contains p.id)).isEmpty
    · rw [if_pos h2] at h
      exact absurd h (by simp)
    · rw [if_neg h2] at h
      by_cases h3 : (((playersT.filter
          (fun p => (picks.map (fun p => p.player_id)).contains p.id)).filterMap
            (fun p => p.espn_athlete_id)).filter (fun a => !(a == ""))).isEmpty
      · rw [if_pos h3] at h
        exact absurd h (by simp)
      · exact ⟨fun he => h1 (by rw [he]; rfl),
          fun he => h2 (by rw [he]; rfl), fun he => h3 (by rw [he]; rfl)⟩

/-- Characterization of a non-skipped rollup run: one row per owner in
first-pick order, each carrying the rounded owner total. -/
theorem leagueTeamPointsRows_eq (E L : String) (picks : List DraftPick)
    (playersT : List PlayerRec) (ptsT : List PointsRec)
    (h1 : picks ≠ [])
    (h2 : playersT.filter
      (fun p => (picks.map (fun p => p.player_id)).contains p.id) ≠ [])
    (h3 : ((playersT.filter
        (fun p => (picks.map (fun p => p.player_id)).contains p.id)).filterMap
      (fun p => p.espn_athlete_id)).filter (fun a => !(a == "")) ≠ []) :
    leagueTeamPointsRows E L picks playersT ptsT
      = some ((keysInOrder (picks.map (fun p => p.user_id))).map (fun u =>
          { event_id := E, league_id := L, user_id := u
            fantasy_points :=
              round2 (ownerEventTotal picks playersT ptsT u) })) := by
  simp only [leagueTeamPointsRows]
  rw [if_neg (fun he => h1 (List.isEmpty_iff.mp he)),
    if_neg (fun he => h2 (List.isEmpty_iff.mp he)),
    if_neg (fun he => h3 (List.isEmpty_iff.mp he))]
  rw [userPlayersMap_eq]
  unfold groupSpec
  rw [List.map_map]
  have hne : keysInOrder (picks.map fun p => p.user_id) ≠ [] := by
    obtain ⟨p0, hp0⟩ := List.exists_mem_of_ne_nil picks h1
    have : p0.user_id ∈ keysInOrder (picks.map fun p => p.user_id) :=
      (mem_keysInOrder _ _).mpr (List.mem_map.mpr ⟨p0, hp0, rfl⟩)
    exact List.ne_nil_of_mem this
  rw [if_neg (by simp [hne])]
  congr 1
  apply List.map_congr_left
  intro u _
  simp only [Function.comp]
  rw [foldl_add_eq_sum]
  unfold ownerEventTotal
  rw [zero_add]

/-- Rows of a non-skipped run are all keyed by the run's league and event. -/
theorem rows_key_of_some {E L : String} {picks : List DraftPick}
    {playersT : List PlayerRec} {ptsT : List PointsRec}
    {rows : List LeagueTeamEventRow}
    (h : leagueTeamPointsRows E L picks playersT ptsT = some rows) :
    ∀ r ∈ rows, r.league_id = L ∧ r.event_id = E := by
  obtain ⟨h1, h2, h3⟩ := leagueTeamPointsRows_guards h
  rw [leagueTeamPointsRows_eq E L picks playersT ptsT h1 h2 h3] at h
  injection h with h
  subst h
  intro r hr
  obtain ⟨u, hu, rfl⟩ := List.mem_map.mp hr
  exact ⟨rfl, rfl⟩

/-- C4 counterexample: a league whose single pick's player has no athlete
identifier is skipped entirely — the rollup emits no rows at all, so the
owner Y does not receive a zero row even though the league has a pick. -/
theorem updateLeagueTeamPoints_skip_cex :
    ([(⟨"Y", "p1"⟩ : DraftPick)] ≠ []) ∧
      leagueTeamPointsRows "E" "L" [⟨"Y", "p1"⟩] [⟨"p1", none, "PY"⟩] []
        = none :=
  ⟨by decide, rfl⟩

/-- C4 amended: provided the league has at least one pick, at least one
pick resolves to a player row, and at least one resolved player has a
non-empty athlete identifier (otherwise the league is skipped and no rows
are produced), the rollup emits exactly one row per owner who has at least
one pick — even when the owner's total is 0, with unresolvable players and
missing point records contributing 0 — namely one row per first-occurrence
owner key carrying the rounded sum of that owner's per-player points. -/
theorem updateLeagueTeamPoints_rows_amended :
    ∀ (E L : String) (picks : List DraftPick) (playersT : List PlayerRec)
      (ptsT : List PointsRec),
      picks ≠ [] →
      playersT.filter
        (fun p => (picks.map (fun p => p.player_id)).contains p.id) ≠ [] →
      ((playersT.filter
          (fun p => (picks.map (fun p => p.player_id)).contains p.id)).filterMap
        (fun p => p.espn_athlete_id)).filter (fun a => !(a == "")) ≠ [] →
      leagueTeamPointsRows E L picks playersT ptsT
        = some ((keysInOrder (picks.map (fun p => p.user_id))).map (fun u =>
            { event_id := E, league_id := L, user_id := u
              fantasy_points :=
                round2 (ownerEventTotal picks playersT ptsT u) }))
      ∧ (keysInOrder (picks.map (fun p => p.user_id))).Nodup
      ∧ (∀ u, u ∈ keysInOrder (picks.map (fun p => p.user_id)) ↔
          u ∈ picks.map (fun p => p.user_id)) := by
  intro E L picks playersT ptsT h1 h2 h3
  exact ⟨leagueTeamPointsRows_eq E L picks playersT ptsT h1 h2 h3,
    keysInOrder_nodup _, fun u => mem_keysInOrder _ u⟩

/-- The worked example of the rollup: owner X drafted two scoring players,
owner Y drafted one player without an athlete identifier. -/
def demoPicks : List DraftPick := [⟨"X", "p1"⟩, ⟨"X", "p2"⟩, ⟨"Y", "p3"⟩]

def demoPlayers : List PlayerRec :=
  [⟨"p1", some "a1", "P1"⟩, ⟨"p2", some "a2", "P2"⟩, ⟨"p3", none, "P3"⟩]

def demoPts : List PointsRec := [⟨"a1", 7 / 2⟩, ⟨"a2", 0⟩]

/-- Witness for C4's amended statement on the worked example. -/
theorem updateLeagueTeamPoints_rows_amended_witness :
    (demoPicks ≠ [] ∧
      demoPlayers.filter
        (fun p => (demoPicks.map (fun p => p.player_id)).contains p.id) ≠ [] ∧
      ((demoPlayers.filter
          (fun p =>
            (demoPicks.map (fun p => p.player_id)).contains p.id)).filterMap
        (fun p => p.espn_athlete_id)).filter (fun a => !(a == "")) ≠ []) ∧
      (leagueTeamPointsRows "E" "L" demoPicks demoPlayers demoPts
        = some ((keysInOrder (demoPicks.map (fun p => p.user_id))).map (fun u =>
            { event_id := "E", league_id := "L", user_id := u
              fantasy_points :=
                round2 (ownerEventTotal demoPicks demoPlayers demoPts u) }))
      ∧ (keysInOrder (demoPicks.map (fun p => p.user_id))).Nodup
      ∧ (∀ u, u ∈ keysInOrder (demoPicks.map (fun p => p.user_id)) ↔
          u ∈ demoPicks.map (fun p => p.user_id))) :=
  ⟨⟨by decide, by decide, by decide⟩,
    updateLeagueTeamPoints_rows_amended "E" "L" demoPicks demoPlayers demoPts
      (by decide) (by decide) (by decide)⟩

/-- C10: every persisted per-owner row carries not the raw sum of the
owner's player points but that sum re-rounded to two decimals. -/
theorem teamPointsRow_rounded :
    ∀ (E L : String) (picks : List DraftPick) (playersT : List PlayerRec)
      (ptsT : List PointsRec) (rows : List LeagueTeamEventRow)
      (r : LeagueTeamEventRow),
      leagueTeamPointsRows E L picks playersT ptsT = some rows →
      r ∈ rows →
      r.fantasy_points
        = round2 (ownerEventTotal picks playersT ptsT r.user_id) := by
  intro E L picks playersT ptsT rows r hsome hmem
  obtain ⟨h1, h2, h3⟩ := leagueTeamPointsRows_guards hsome
  rw [leagueTeamPointsRows_eq E L picks playersT ptsT h1 h2 h3] at hsome
  injection hsome with hsome
  subst hsome
  obtain ⟨u, hu, rfl⟩ := List.mem_map.mp hmem
  rfl

def demoRowX : LeagueTeamEventRow :=
  ⟨"E", "L", "X", round2 (ownerEventTotal demoPicks demoPlayers demoPts "X")⟩

def demoRowY : LeagueTeamEventRow :=
  ⟨"E", "L", "Y", round2 (ownerEventTotal demoPicks demoPlayers demoPts "Y")⟩

/-- Witness for C10 on the worked example's row for owner X. -/
theorem teamPointsRow_rounded_witness :
    (leagueTeamPointsRows "E" "L" demoPicks demoPlayers demoPts
        = some [demoRowX, demoRowY]
      ∧ demoRowX ∈ [demoRowX, demoRowY]) ∧
      demoRowX.fantasy_points
        = round2 (ownerEventTotal demoPicks demoPlayers demoPts
            demoRowX.user_id) := by
  have hsome : leagueTeamPointsRows "E" "L" demoPicks demoPlayers demoPts
      = some [demoRowX, demoRowY] := by
    rw [leagueTeamPointsRows_eq "E" "L" demoPicks demoPlayers demoPts
      (by decide) (by decide) (by decide)]
    rfl
  exact ⟨⟨hsome, by simp⟩,
    teamPointsRow_rounded "E" "L" demoPicks demoPlayers demoPts
      [demoRowX, demoRowY] demoRowX hsome (by simp)⟩

/-- C5: the persistence step of a scoring run touches only the rows of its
own (league, event) pair — the slice of every other pair is left exactly
unchanged — and re-running the same rollup with unchanged inputs yields the
same persisted table (no duplication, no accumulation). -/
theorem runLeagueRollup_frame_idem :
    ∀ (table : List LeagueTeamEventRow) (L E : String)
      (picks : List DraftPick) (playersT : List PlayerRec)
      (ptsT : List PointsRec),
      (∀ L2 E2 : String, ¬(L2 = L ∧ E2 = E) →
        (runLeagueRollup table L E picks playersT ptsT).filter
            (fun r => r.league_id == L2 && r.event_id == E2)
          = table.filter (fun r => r.league_id == L2 && r.event_id == E2))
      ∧ runLeagueRollup (runLeagueRollup table L E picks playersT ptsT)
            L E picks playersT ptsT
        = runLeagueRollup table L E picks playersT ptsT := by
  intro table L E picks playersT ptsT
  cases hres : leagueTeamPointsRows E L picks playersT ptsT with
  | none =>
    constructor
    · intro L2 E2 _
      simp only [runLeagueRollup, hres]
    · simp only [runLeagueRollup, hres]
  | some rows =>
    have hkey : ∀ r ∈ rows, r.league_id = L ∧ r.event_id = E :=
      rows_key_of_some hres
    constructor
    · intro L2 E2 hne
      simp only [runLeagueRollup, hres, persistTeamPoints]
      rw [List.filter_append]
      have hrows : rows.filter
          (fun r => r.league_id == L2 && r.event_id == E2) = [] :=
        List.filter_eq_nil_iff.mpr (fun r hr hp => by
          obtain ⟨hL, hE⟩ := hkey r hr
          rw [Bool.and_eq_true, beq_iff_eq, beq_iff_eq] at hp
          exact hne ⟨hp.1.symm.trans hL ▸ rfl, hp.2.symm.trans hE ▸ rfl⟩)
      rw [hrows, List.filter_filter]
      rw [List.append_nil]
      apply List.filter_congr
      intro a _
      by_cases hp : (a.league_id == L2 && a.event_id == E2) = true
      · have hp2 := hp
        rw [Bool.and_eq_true, beq_iff_eq, beq_iff_eq] at hp2
        have hq : (a.league_id == L && a.event_id == E) = false :=
          Bool.eq_false_iff.mpr (fun hq => by
            rw [Bool.and_eq_true, beq_iff_eq, beq_iff_eq] at hq
            exact hne ⟨hp2.1.symm.trans hq.1, hp2.2.symm.trans hq.2⟩)
        rw [hp, hq]
        rfl
      · have hp0 : (a.league_id == L2 && a.event_id == E2) = false :=
          Bool.eq_false_iff.mpr hp
        rw [hp0]
        rfl
    · simp only [runLeagueRollup, hres, persistTeamPoints]
      rw [List.filter_append]
      have hrows0 : rows.filter
          (fun r => !(r.league_id == L && r.event_id == E)) = [] :=
        List.filter_eq_nil_iff.mpr (fun r hr hp => by
          obtain ⟨hL, hE⟩ := hkey r hr
          rw [hL, hE] at hp
          simp at hp)
      rw [hrows0, List.filter_filter]
      have hcongr : table.filter
          (fun a => !(a.league_id == L && a.event_id == E)
            && !(a.league_id == L && a.event_id == E))
          = table.filter
              (fun a => !(a.league_id == L && a.event_id == E)) :=
        List.filter_congr (fun a _ => Bool.and_self _)
      rw [hcongr, List.append_nil]

/-- Witness for C5's frame property at a concrete foreign-keyed table. -/
theorem runLeagueRollup_frame_idem_witness :
    ¬(("L2" : String) = "L" ∧ ("E2" : String) = "E") ∧
      (runLeagueRollup [⟨"E2", "L2", "Z", 1⟩] "L" "E" demoPicks demoPlayers
          demoPts).filter
          (fun r => r.league_id == "L2" && r.event_id == "E2")
        = [(⟨"E2", "L2", "Z", 1⟩ : LeagueTeamEventRow)].filter
            (fun r => r.league_id == "L2" && r.event_id == "E2") ∧
      runLeagueRollup
          (runLeagueRollup [⟨"E2", "L2", "Z", 1⟩] "L" "E" demoPicks
            demoPlayers demoPts) "L" "E" demoPicks demoPlayers demoPts
        = runLeagueRollup [⟨"E2", "L2", "Z", 1⟩] "L" "E" demoPicks
            demoPlayers demoPts :=
  ⟨by decide,
    (runLeagueRollup_frame_idem [⟨"E2", "L2", "Z", 1⟩] "L" "E" demoPicks
      demoPlayers demoPts).1 "L2" "E2" (by decide),
    (runLeagueRollup_frame_idem [⟨"E2", "L2", "Z", 1⟩] "L" "E" demoPicks
      demoPlayers demoPts).2⟩

/-! ### Lemmas for the stat-extraction invariants -/

theorem foldl_preserves {α β : Type} (Inv : α → Prop) (step : α → β → α)
    (l : List β) (h : ∀ a b, b ∈ l → Inv a → Inv (step a b)) :
    ∀ a, Inv a → Inv (l.foldl step a) := by
  induction l with
  | nil => intro a ha; exact ha
  | cons b t ih =>
    intro a ha
    exact ih (fun a c hc hi => h a c (by simp [hc]) hi) _
      (h a b (by simp) ha)

theorem eid_ite (c : Prop) [Decidable c] (a b : GameStatLine) :
    (if c then a else b).espn_athlete_id
      = if c then a.espn_athlete_id else b.espn_athlete_id :=
  apply_ite _ _ _ _

theorem applyLabel_eid (name label : String) (v : JSVal) (s : GameStatLine) :
    (applyLabel name label v s).espn_athlete_id = s.espn_athlete_id := by
  simp only [applyLabel, eid_ite, ite_self]

theorem applyLabels_eid (name : String) (labels : List String)
    (values : List JSVal) (s : GameStatLine) :
    (applyLabels name labels values s).espn_athlete_id
      = s.espn_athlete_id := by
  induction labels generalizing values s with
  | nil => rfl
  | cons l ls ih =>
    simp only [applyLabels]
    rw [ih, applyLabel_eid]

theorem updAbbr_eid (tb : Option String) (l : GameStatLine) :
    (updAbbr tb l).espn_athlete_id = l.espn_athlete_id := by
  simp only [updAbbr, eid_ite, ite_self]

theorem updateLine_map_eid (acc : List GameStatLine) (aid : String)
    (f : GameStatLine → GameStatLine)
    (hf : ∀ l, (f l).espn_athlete_id = l.espn_athlete_id) :
    (updateLine acc aid f).map (fun l => l.espn_athlete_id)
      = acc.map (fun l => l.espn_athlete_id) := by
  induction acc with
  | nil => rfl
  | cons l t ih =>
    simp only [updateLine]
    by_cases h : l.espn_athlete_id == aid
    · rw [if_pos h]
      simp [hf l]
    · rw [if_neg h]
      simp [ih]

theorem getOrInit_map_eid (acc : List GameStatLine) (aid : String)
    (tb : Option String) :
    (getOrInit acc aid tb).map (fun l => l.espn_athlete_id)
      = if acc.any (fun l => l.espn_athlete_id == aid)
        then acc.map (fun l => l.espn_athlete_id)
        else acc.map (fun l => l.espn_athlete_id) ++ [aid] := by
  simp only [getOrInit]
  by_cases h : acc.any (fun l => l.espn_athlete_id == aid)
  · rw [if_pos h, if_pos h, updateLine_map_eid _ _ _ (updAbbr_eid tb)]
  · rw [if_neg h, if_neg h, updateLine_map_eid _ _ _ (updAbbr_eid tb)]
    simp [initLine]

theorem processRow_map_nodup (acc : List GameStatLine)
    (tb : Option String) (name : String) (labels : List String)
    (row : AthleteRow)
    (h : (acc.map (fun l => l.espn_athlete_id)).Nodup) :
    ((processRow acc tb name labels row).map
      (fun l => l.espn_athlete_id)).Nodup := by
  unfold processRow
  cases athleteIdOfRow row with
  | none => exact h
  | some aid =>
    rw [updateLine_map_eid _ _ _
      (fun l => applyLabels_eid name labels (row.stats.getD []) l)]
    rw [getOrInit_map_eid]
    by_cases hany : acc.any (fun l => l.espn_athlete_id == aid)
    · rw [if_pos hany]
      exact h
    · rw [if_neg hany]
      have hnot : aid ∉ acc.map (fun l => l.espn_athlete_id) := by
        intro hm
        obtain ⟨l, hl, he⟩ := List.mem_map.mp hm
        exact hany (List.any_eq_true.mpr ⟨l, hl, beq_iff_eq.mpr he⟩)
      simp [List.nodup_append, h, hnot]

theorem processGroup_map_nodup (acc : List GameStatLine)
    (tb : Option String) (g : StatGroup)
    (h : (acc.map (fun l => l.espn_athlete_id)).Nodup) :
    ((processGroup acc tb g).map (fun l => l.espn_athlete_id)).Nodup := by
  unfold processGroup
  exact foldl_preserves
    (fun a => (a.map (fun l => l.espn_athlete_id)).Nodup) _ _
    (fun a row _ hi => processRow_map_nodup a tb _ _ row hi) acc h

theorem processTeamBlock_map_nodup (acc : List GameStatLine)
    (b : TeamBlock)
    (h : (acc.map (fun l => l.espn_athlete_id)).Nodup) :
    ((processTeamBlock acc b).map (fun l => l.espn_athlete_id)).Nodup := by
  unfold processTeamBlock
  cases b.statistics with
  | none => exact h
  | some gs =>
    exact foldl_preserves
      (fun a => (a.map (fun l => l.espn_athlete_id)).Nodup) _ _
      (fun a g _ hi => processGroup_map_nodup a _ g hi) acc h

theorem extractStats_nodup (input : Option (List TeamBlock)) :
    ((extractStatsFromSummary input).map
      (fun l => l.espn_athlete_id)).Nodup := by
  cases input with
  | none => simp [extractStatsFromSummary]
  | some blocks =>
    unfold extractStatsFromSummary
    exact foldl_preserves
      (fun a => (a.map (fun l => l.espn_athlete_id)).Nodup) _ _
      (fun a b _ hi => processTeamBlock_map_nodup a b hi) []
      (by simp)

theorem foldl_congr_rel {α β : Type} (R : β → β → Prop) (step : α → β → α)
    (h : ∀ a b b2, R b b2 → step a b = step a b2) :
    ∀ (l l2 : List β), List.Forall₂ R l l2 →
      ∀ a, l.foldl step a = l2.foldl step a := by
  intro l l2 hrel
  induction hrel with
  | nil => intro a; rfl
  | cons hbb _ ih =>
    intro a
    simp only [List.foldl_cons]
    rw [h a _ _ hbb]
    exact ih _

theorem jsOrS_getD (o : Option String) :
    (jsOrS o (some "")).getD "" = o.getD "" := by
  cases o with
  | none => rfl
  | some s =>
    simp only [jsOrS]
    by_cases h : s = ""
    · rw [if_pos h, h]
    · rw [if_neg h]

theorem applyLabels_congr (ls : List String) :
    ∀ (ls2 : List String),
      ls.map strToLower = ls2.map strToLower →
      ∀ (name : String) (values : List JSVal) (s : GameStatLine),
        applyLabels name ls values s = applyLabels name ls2 values s := by
  induction ls with
  | nil =>
    intro ls2 h name values s
    have : ls2 = [] := by
      cases ls2 with
      | nil => rfl
      | cons a t => simp at h
    rw [this]
  | cons l t ih =>
    intro ls2 h name values s
    cases ls2 with
    | nil => simp at h
    | cons l2 t2 =>
      simp only [List.map_cons, List.cons.injEq] at h
      simp only [applyLabels]
      rw [h.1, ih t2 h.2]

theorem processRow_labels_congr (acc : List GameStatLine)
    (tb : Option String) (name : String) (ls ls2 : List String)
    (h : ls.map strToLower = ls2.map strToLower)
    (row : AthleteRow) :
    processRow acc tb name ls row = processRow acc tb name ls2 row := by
  unfold processRow
  cases athleteIdOfRow row with
  | none => rfl
  | some aid =>
    have hfun : applyLabels name ls (row.stats.getD [])
        = applyLabels name ls2 (row.stats.getD []) := by
      funext s
      exact applyLabels_congr ls ls2 h name (row.stats.getD []) s
    rw [hfun]

theorem processGroup_congr (acc : List GameStatLine) (tb : Option String)
    (g g2 : StatGroup) (hg : groupKeyEq g g2) :
    processGroup acc tb g = processGroup acc tb g2 := by
  obtain ⟨hname, hlabels, hath⟩ := hg
  unfold processGroup
  rw [hath]
  have hn : strToLower ((jsOrS g.name (some "")).getD "")
      = strToLower ((jsOrS g2.name (some "")).getD "") := by
    rw [jsOrS_getD, jsOrS_getD, hname]
  rw [hn]
  have hstep : ∀ (a : List GameStatLine) (row : AthleteRow),
      processRow a tb (strToLower ((jsOrS g2.name (some "")).getD ""))
          (g.labels.getD []) row
        = processRow a tb (strToLower ((jsOrS g2.name (some "")).getD ""))
            (g2.labels.getD []) row :=
    fun a row => processRow_labels_congr a tb _ _ _ hlabels row
  induction (g2.athletes.getD []) generalizing acc with
  | nil => rfl
  | cons r rs ih =>
    simp only [List.foldl_cons]
    rw [hstep acc r]
    exact ih _

theorem teamAbbrOf_congr (b b2 : TeamBlock) (h : b.team = b2.team) :
    teamAbbrOf b = teamAbbrOf b2 := by
  unfold teamAbbrOf
  rw [h]

theorem processTeamBlock_congr (acc : List GameStatLine) (b b2 : TeamBlock)
    (hb : blockKeyEq b b2) :
    processTeamBlock acc b = processTeamBlock acc b2 := by
  obtain ⟨hteam, hstats⟩ := hb
  unfold processTeamBlock
  rw [teamAbbrOf_congr b b2 hteam]
  cases hb1 : b.statistics with
  | none =>
    cases hb2 : b2.statistics with
    | none => rfl
    | some gs2 =>
      rw [hb1, hb2] at hstats
      exact absurd hstats (by simp [statisticsKeyEq])
  | some gs =>
    cases hb2 : b2.statistics with
    | none =>
      rw [hb1, hb2] at hstats
      exact absurd hstats (by simp [statisticsKeyEq])
    | some gs2 =>
      rw [hb1, hb2] at hstats
      have hrel : List.Forall₂ groupKeyEq gs gs2 := hstats
      exact foldl_congr_rel groupKeyEq _
        (fun a g g2 hg => processGroup_congr a _ g g2 hg) gs gs2 hrel acc

theorem extractStats_caseEq (blocks blocks2 : List TeamBlock)
    (h : List.Forall₂ blockKeyEq blocks blocks2) :
    extractStatsFromSummary (some blocks)
      = extractStatsFromSummary (some blocks2) := by
  unfold extractStatsFromSummary
  exact foldl_congr_rel blockKeyEq _
    (fun a b b2 hb => processTeamBlock_congr a b b2 hb) blocks blocks2 h []

theorem applyLabel_unrecognized (name label : String) (v : JSVal)
    (s : GameStatLine) (h : recognizedName name = false) :
    applyLabel name label v s = s := by
  simp only [recognizedName, Bool.or_eq_false_iff] at h
  obtain ⟨⟨⟨⟨⟨h1, h2⟩, h3⟩, h4⟩, h5⟩, h6⟩ := h
  simp [applyLabel, h1, h2, h3, h4, h5, h6]

theorem applyLabels_unrecognized (name : String) (labels : List String)
    (values : List JSVal) (s : GameStatLine)
    (h : recognizedName name = false) :
    applyLabels name labels values s = s := by
  induction labels generalizing values s with
  | nil => rfl
  | cons l ls ih =>
    simp only [applyLabels]
    rw [applyLabel_unrecognized _ _ _ _ h, ih]

theorem statsAllZero_initLine (aid : String) (tb : Option String) :
    statsAllZero (initLine aid tb) := by
  simp [statsAllZero, initLine]

theorem statsAllZero_updAbbr (tb : Option String) (l : GameStatLine)
    (h : statsAllZero l) : statsAllZero (updAbbr tb l) := by
  unfold updAbbr
  split
  · exact h
  · exact h

theorem mem_updateLine (acc : List GameStatLine) (aid : String)
    (f : GameStatLine → GameStatLine) (l : GameStatLine)
    (h : l ∈ updateLine acc aid f) : ∃ l0 ∈ acc, l = l0 ∨ l = f l0 := by
  induction acc with
  | nil => simp [updateLine] at h
  | cons a t ih =>
    simp only [updateLine] at h
    by_cases ha : a.espn_athlete_id == aid
    · rw [if_pos ha] at h
      rcases List.mem_cons.mp h with rfl | hm
      · exact ⟨a, by simp, Or.inr rfl⟩
      · exact ⟨l, by simp [hm], Or.inl rfl⟩
    · rw [if_neg ha] at h
      rcases List.mem_cons.mp h with he | hm
      · exact ⟨a, by simp, Or.inl he⟩
      · obtain ⟨l0, hl0, hor⟩ := ih hm
        exact ⟨l0, by simp [hl0], hor⟩

theorem mem_getOrInit (acc : List GameStatLine) (aid : String)
    (tb : Option String) (l : GameStatLine)
    (h : l ∈ getOrInit acc aid tb) :
    ∃ l0, (l0 ∈ acc ∨ l0 = initLine aid tb) ∧
      (l = l0 ∨ l = updAbbr tb l0) := by
  unfold getOrInit at h
  by_cases hany : acc.any (fun x => x.espn_athlete_id == aid)
  · rw [if_pos hany] at h
    obtain ⟨l0, hl0, hor⟩ := mem_updateLine _ _ _ _ h
    exact ⟨l0, Or.inl hl0, hor⟩
  · rw [if_neg hany] at h
    obtain ⟨l0, hl0, hor⟩ := mem_updateLine _ _ _ _ h
    rcases List.mem_append.mp hl0 with hm | hm
    · exact ⟨l0, Or.inl hm, hor⟩
    · exact ⟨l0, Or.inr (List.mem_singleton.mp hm), hor⟩

theorem processRow_zero (acc : List GameStatLine) (tb : Option String)
    (name : String) (labels : List String) (row : AthleteRow)
    (hname : recognizedName name = false)
    (hacc : ∀ l ∈ acc, statsAllZero l) :
    ∀ l ∈ processRow acc tb name labels row, statsAllZero l := by
  unfold processRow
  cases athleteIdOfRow row with
  | none => exact hacc
  | some aid =>
    intro l hl
    obtain ⟨l1, hl1, hor1⟩ := mem_updateLine _ _ _ _ hl
    rw [applyLabels_unrecognized _ _ _ _ hname] at hor1
    have hleq : l = l1 := by
      rcases hor1 with h | h <;> exact h
    obtain ⟨l0, hl0, hor0⟩ := mem_getOrInit _ _ _ _ hl1
    have hz0 : statsAllZero l0 := by
      rcases hl0 with hm | rfl
      · exact hacc l0 hm
      · exact statsAllZero_initLine aid tb
    have hz1 : statsAllZero l1 := by
      rcases hor0 with rfl | rfl
      · exact hz0
      · exact statsAllZero_updAbbr tb l0 hz0
    rw [hleq]
    exact hz1

theorem processGroup_zero (acc : List GameStatLine) (tb : Option String)
    (g : StatGroup)
    (hg : recognizedName (strToLower (g.name.getD "")) = false)
    (hacc : ∀ l ∈ acc, statsAllZero l) :
    ∀ l ∈ processGroup acc tb g, statsAllZero l := by
  unfold processGroup
  have hname : recognizedName
      (strToLower ((jsOrS g.name (some "")).getD "")) = false := by
    rw [jsOrS_getD]
    exact hg
  exact foldl_preserves (fun a => ∀ l ∈ a, statsAllZero l) _ _
    (fun a row _ hi => processRow_zero a tb _ _ row hname hi) acc hacc

theorem processTeamBlock_zero (acc : List GameStatLine) (b : TeamBlock)
    (hb : ∀ g ∈ b.statistics.getD [],
      recognizedName (strToLower (g.name.getD "")) = false)
    (hacc : ∀ l ∈ acc, statsAllZero l) :
    ∀ l ∈ processTeamBlock acc b, statsAllZero l := by
  unfold processTeamBlock
  cases hs : b.statistics with
  | none => exact hacc
  | some gs =>
    rw [hs] at hb
    exact foldl_preserves (fun a => ∀ l ∈ a, statsAllZero l) _ _
      (fun a g hg hi => processGroup_zero a _ g (hb g hg) hi) acc hacc

theorem extractStats_zeros (blocks : List TeamBlock)
    (h : ∀ b ∈ blocks, ∀ g ∈ b.statistics.getD [],
      recognizedName (strToLower (g.name.getD "")) = false) :
    ∀ l ∈ extractStatsFromSummary (some blocks), statsAllZero l := by
  unfold extractStatsFromSummary
  exact foldl_preserves (fun a => ∀ l ∈ a, statsAllZero l) _ _
    (fun a b hb hi => processTeamBlock_zero a b (h b hb) hi) []
    (by simp)

/-- C8: over any box-score input the extraction yields at most one
accumulated stat line per distinct athlete identifier (the id list of the
output has no duplicates); category and column labels are matched
case-insensitively (inputs equal up to letter case of names and labels
extract identically); and unrecognized categories are silently ignored —
an input all of whose categories are outside the fixed vocabulary produces
only all-zero stat lines, never a failure. -/
theorem extractStats_props :
    (∀ input : Option (List TeamBlock),
      ((extractStatsFromSummary input).map
        (fun l => l.espn_athlete_id)).Nodup)
    ∧ (∀ blocks blocks2 : List TeamBlock,
        List.Forall₂ blockKeyEq blocks blocks2 →
        extractStatsFromSummary (some blocks)
          = extractStatsFromSummary (some blocks2))
    ∧ (∀ blocks : List TeamBlock,
        (∀ b ∈ blocks, ∀ g ∈ b.statistics.getD [],
          recognizedName (strToLower (g.name.getD "")) = false) →
        ∀ l ∈ extractStatsFromSummary (some blocks), statsAllZero l) :=
  ⟨extractStats_nodup, extractStats_caseEq, extractStats_zeros⟩

/-- A one-athlete box-score block with upper-case name and labels. -/
def demoRow15 : AthleteRow :=
  ⟨some ⟨some (JSVal.str "15")⟩, some [JSVal.str "300"]⟩

def demoBlocksA : List TeamBlock :=
  [⟨some ⟨some "KC", none⟩,
    some [⟨some "Passing", some ["YDS"], some [demoRow15]⟩]⟩]

def demoBlocksB : List TeamBlock :=
  [⟨some ⟨some "KC", none⟩,
    some [⟨some "passing", some ["yds"], some [demoRow15]⟩]⟩]

def demoBlocksU : List TeamBlock :=
  [⟨some ⟨some "KC", none⟩,
    some [⟨some "kicking", some ["fg"], some [demoRow15]⟩]⟩]

def demoLineU : GameStatLine :=
  ⟨"15", some "KC", 0, 0, 0, 0, 0, 0, 0, 0, 0, 0, 0⟩

/-- Witness for C8 on concrete mixed-case and unrecognized-category
inputs. -/
theorem extractStats_props_witness :
    (List.Forall₂ blockKeyEq demoBlocksA demoBlocksB ∧
      (∀ b ∈ demoBlocksU, ∀ g ∈ b.statistics.getD [],
        recognizedName (strToLower (g.name.getD "")) = false) ∧
      extractStatsFromSummary (some demoBlocksU) = [demoLineU] ∧
      demoLineU ∈ extractStatsFromSummary (some demoBlocksU)) ∧
    ((extractStatsFromSummary (some demoBlocksA)).map
        (fun l => l.espn_athlete_id)).Nodup ∧
    extractStatsFromSummary (some demoBlocksA)
      = extractStatsFromSummary (some demoBlocksB) ∧
    statsAllZero demoLineU := by
  have hF : List.Forall₂ blockKeyEq demoBlocksA demoBlocksB :=
    List.Forall₂.cons
      ⟨rfl, List.Forall₂.cons ⟨by decide, by decide, rfl⟩ List.Forall₂.nil⟩
      List.Forall₂.nil
  have hU : ∀ b ∈ demoBlocksU, ∀ g ∈ b.statistics.getD [],
      recognizedName (strToLower (g.name.getD "")) = false := by decide
  have hmem : demoLineU ∈ extractStatsFromSummary (some demoBlocksU) := by
    decide
  exact ⟨⟨hF, hU, by decide, hmem⟩,
    extractStats_props.1 (some demoBlocksA),
    extractStats_props.2.1 demoBlocksA demoBlocksB hF,
    extractStats_props.2.2 demoBlocksU hU demoLineU hmem⟩
